import Mathlib

/-!
Shallow embedding of the forecasting core of the JobPrediction repository:
the chronological splitter, scaler fitting, sliding-window dataset builder
(`ml/datasets.py`), the directional-accuracy metric (`ml/evaluate.py`,
`ml/baselines.py`), the naive baseline (`ml/baselines.py`), the recursive
forecaster and forecast orchestration (`backend/app/services/forecast.py`),
the artifact-key slugs (`ml/train.py`, `backend/app/config.py`) and the
model cache (`backend/app/services/forecast.py`).

Numeric values are embedded as rationals (exact arithmetic standing in for
the source's float64), calendar dates as integers (day numbers; one week is
7 days), strings as lists of characters, and raised exceptions as values of
an error type through `Except`.
-/

/-- Error taxonomy of the source: `FileNotFoundError`, the
`ValueError(\x7bInsufficient historical data ...\x7d)` raised by
`ForecastService.forecast`, the `AssertionError` / `ValueError` raised for bad
configuration (split ratios, unknown scaler kind), and the
`ValueError(\x7bModel must be fitted before prediction\x7d)` of the baselines. -/
inductive Err where
  | notFound
  | insufficientHistory
  | invalidConfiguration
  | notFitted
deriving DecidableEq, Repr

/-- Python `int(q)` for a real quantity: truncation toward zero
(`int(n * train_ratio)` in `split_time_series`). -/
def pyInt (q : ℚ) : ℤ := if 0 ≤ q then ⌊q⌋ else ⌈q⌉

/-- Normalize one endpoint of a Python slice `l[a:b]` against a list of
length `n`: a negative index counts from the end, and both ends clamp
into `[0, n]`. -/
def pyIdx (n : ℕ) (i : ℤ) : ℕ := if i < 0 then (i + n).toNat else min i.toNat n

/-- Python slice `l[a:b]` (as used by `DataFrame.iloc[a:b]` on a
default-integer index): elements from the normalized start (inclusive)
to the normalized stop (exclusive). -/
def pySlice (a b : ℤ) (l : List α) : List α :=
  (l.take (pyIdx l.length b)).drop (pyIdx l.length a)

/-- Python slice `l[-w:]` as used for
`df[postings_count].values[-window_size:]` in `ForecastService.forecast`:
for `w = 0` this is the whole list (a Python quirk of `-0`), otherwise the
last `min w (length l)` elements. -/
def pySliceLast (w : ℕ) (l : List ℚ) : List ℚ :=
  if w = 0 then l else l.drop (l.length - w)

/-- Sort the rows of a data frame ascending by the date column
(`data.sort_values(date_col)` in `split_time_series`; rows are
(week_start, postings_count) pairs). -/
def sortByDate (data : List (ℤ × ℚ)) : List (ℤ × ℚ) :=
  data.mergeSort (fun p q => p.1 ≤ q.1)

/-- Embedding of `ml/datasets.py` `split_time_series`: assert that the three ratios sum
to 1 within 1e-6 (`AssertionError` modelled as a configuration error), sort
ascending by date, cut at `int(n * train_ratio)` and
`int(n * (train_ratio + val_ratio))`, and return the three `iloc` slices. -/
def split_time_series (data : List (ℤ × ℚ)) (r_tr r_va r_te : ℚ) :
    Except Err (List (ℤ × ℚ) × List (ℤ × ℚ) × List (ℤ × ℚ)) :=
  if |r_tr + r_va + r_te - 1| < 1 / 1000000 then
    let d := sortByDate data
    let n : ℤ := d.length
    let train_end := pyInt (n * r_tr)
    let val_end := pyInt (n * (r_tr + r_va))
    .ok (pySlice 0 train_end d, pySlice train_end val_end d, pySlice val_end n d)
  else
    .error .invalidConfiguration

/-- Embedding of `ml/datasets.py` `TimeSeriesDataset.__init__`: for each
`i in range(len(data) - window_size)` the sample `(data[i:i+w], data[i+w])`.
Every index `i + w` is in range because `i < len - w`, so the `getD`
default is never consulted. -/
def TimeSeriesDataset.build (data : List ℚ) (w : ℕ) : List (List ℚ × ℚ) :=
  (List.range (data.length - w)).map (fun i => ((data.drop i).take w, data.getD (i + w) 0))

/-- numpy `np.diff`: consecutive differences `a[i+1] - a[i]`. -/
def npDiff (l : List ℚ) : List ℚ := List.zipWith (fun a b => b - a) l l.tail

/-- Directional accuracy exactly as computed in `compute_metrics`
(`ml/evaluate.py`) and `compute_baseline_metrics` (`ml/baselines.py`):
when the true series has more than one point, compare the booleans
`np.diff(y_true) > 0` and `np.diff(y_pred) > 0` elementwise and return the
mean as a percentage, else NaN (modelled as `none`).  The two numpy arrays
have the same shape whenever the inputs have equal length, which is the
domain of use; the embedding zips them. -/
def directional_accuracy (y_true y_pred : List ℚ) : Option ℚ :=
  if 1 < y_true.length then
    let td := (npDiff y_true).map (fun d => decide (0 < d))
    let pd := (npDiff y_pred).map (fun d => decide (0 < d))
    some (((((td.zip pd).countP (fun p => p.1 == p.2)) : ℚ) / (td.length : ℚ)) * 100)
  else
    none

/-- Three-valued sign on rationals, used only to state the spec's wording
of the directional-accuracy claim (sign(Δy_true) == sign(Δy_pred)). -/
def signum (q : ℚ) : ℤ := if q < 0 then -1 else if q = 0 then 0 else 1

/-- Modelled from the spec's wording of the directional-accuracy sentence,
for comparison with the source's `directional_accuracy`: the fraction of
consecutive-pair indices where the three-valued signs of the deltas agree,
as a percentage; NaN (`none`) on fewer than two points. -/
def directionalAccuracySpec (y_true y_pred : List ℚ) : Option ℚ :=
  if 1 < y_true.length then
    let mcount := ((npDiff y_true).zip (npDiff y_pred)).countP
      (fun p => signum p.1 == signum p.2)
    some (((mcount : ℚ) / ((npDiff y_true).length : ℚ)) * 100)
  else
    none

/-- Fitted scaler state (`sklearn` `StandardScaler` / `MinMaxScaler` as
created and fitted in `prepare_datasets`): `StandardScaler.fit` stores the
mean and the (population) variance of the training values, `MinMaxScaler.fit`
stores their minimum and maximum. -/
inductive ScalerE where
  | standard (mean variance : ℚ)
  | minmax (dataMin dataMax : ℚ)
deriving DecidableEq, Repr

/-- Arithmetic mean of a list of rationals (0 on the empty list; sklearn
rejects an empty fit, which no claim exercises). -/
def listMean (l : List ℚ) : ℚ := l.sum / l.length

/-- Population variance of a list of rationals (ddof = 0, as sklearn). -/
def listVar (l : List ℚ) : ℚ := ((l.map (fun x => (x - listMean l) ^ 2)).sum) / l.length

/-- Minimum of a list (0 on the empty list, never consulted by the claims). -/
def listMin (l : List ℚ) : ℚ :=
  match l with
  | [] => 0
  | a :: r => r.foldl min a

/-- Maximum of a list (0 on the empty list, never consulted by the claims). -/
def listMax (l : List ℚ) : ℚ :=
  match l with
  | [] => 0
  | a :: r => r.foldl max a

/-- Embedding of `ml/datasets.py` `prepare_datasets` lines 123-131: choose the scaler by
the `scaler_type` string and fit it on the training values only; an
unknown kind raises `ValueError` (configuration error). -/
def fitScaler (scaler_type : List Char) (train : List ℚ) : Except Err ScalerE :=
  if scaler_type = ("standard").toList then
    .ok (.standard (listMean train) (listVar train))
  else if scaler_type = ("minmax").toList then
    .ok (.minmax (listMin train) (listMax train))
  else
    .error .invalidConfiguration

/-- Embedding of `ml/datasets.py` `prepare_datasets`: reuse a pre-fitted scaler when one
is passed, otherwise fit on the train segment only; then transform all three
segments with that single scaler and build the sliding-window datasets.
The numeric transform itself applies float square roots, so the embedding
is parametric in the elementwise transform interpretation `tf`; every claim
about this function holds for all interpretations. -/
def prepare_datasets (tf : ScalerE → ℚ → ℚ)
    (train_vals val_vals test_vals : List ℚ) (window_size : ℕ)
    (scaler_type : List Char) (given : Option ScalerE) :
    Except Err (List (List ℚ × ℚ) × List (List ℚ × ℚ) × List (List ℚ × ℚ) × ScalerE) :=
  (match given with
   | some s => Except.ok s
   | none => fitScaler scaler_type train_vals).map
    (fun s =>
      (TimeSeriesDataset.build (train_vals.map (tf s)) window_size,
       TimeSeriesDataset.build (val_vals.map (tf s)) window_size,
       TimeSeriesDataset.build (test_vals.map (tf s)) window_size,
       s))

/-- Embedding of `ml/baselines.py` `NaiveBaseline`: the only state is `last_value`,
`None` until `fit` is called. -/
structure NaiveBaseline where
  last_value : Option ℚ
deriving DecidableEq, Repr

/-- Constructor `NaiveBaseline.__init__`: `last_value = None`. -/
def NaiveBaseline.init : NaiveBaseline := ⟨none⟩

/-- Method `NaiveBaseline.fit`: store `train_data[-1] if len(train_data) > 0 else 0.0`. -/
def NaiveBaseline.fit (_b : NaiveBaseline) (train : List ℚ) : NaiveBaseline :=
  ⟨some (if 0 < train.length then train.getLastD 0 else 0)⟩

/-- Method `NaiveBaseline.predict`: raise the not-fitted `ValueError` when
`last_value is None`, else `np.full(horizon, last_value)`. -/
def NaiveBaseline.predict (b : NaiveBaseline) (horizon : ℕ) : Except Err (List ℚ) :=
  match b.last_value with
  | none => .error .notFitted
  | some v => .ok (List.replicate horizon v)

/-- The prediction loop of `ForecastService.predict_recursive`
(`backend/app/services/forecast.py` lines 101-114): starting from the
scaled window, repeatedly evaluate the model on the current window, record
the scaled prediction, and slide the window by dropping its first element
and appending the prediction.  The model forward pass (LSTM in inference
mode) is a fixed function of the window. -/
def rollWindows (model : List ℚ → ℚ) : ℕ → List ℚ → List ℚ
  | 0, _ => []
  | h + 1, w => model w :: rollWindows model h (w.drop 1 ++ [model w])

/-- The window visited at step `i` of the loop of `predict_recursive`:
step 0 sees the scaled seed window, and each later step sees the previous
window with the oldest element dropped and the previous scaled prediction
appended. -/
def windowIter (model : List ℚ → ℚ) (w0 : List ℚ) : ℕ → List ℚ
  | 0 => w0
  | i + 1 => (windowIter model w0 i).drop 1 ++ [model (windowIter model w0 i)]

/-- Embedding of `ForecastService.predict_recursive`: scale the raw seed window with the
fitted scaler's `transform` (elementwise `tr`), run the autoregressive loop
for `horizon` steps, inverse-transform all scaled predictions in one batch
(elementwise `inv`), and clamp every value to be non-negative
(`np.maximum(predictions_raw, 0)`).  The scaler argument of the source is
duck-typed, so the embedding takes its two elementwise functions. -/
def predict_recursive (model : List ℚ → ℚ) (tr inv : ℚ → ℚ)
    (initial_sequence : List ℚ) (horizon : ℕ) : List ℚ :=
  ((rollWindows model horizon (initial_sequence.map tr)).map inv).map (fun x => max x 0)

/-- The role string of the hardcoded special case in
`ForecastService.forecast`. -/
def seRoleChars : List Char := ("Software Engineer").toList

/-- The location substring of the hardcoded special case in
`ForecastService.forecast` (Python `"New York" in location`). -/
def nyChars : List Char := ("New York").toList

/-- Day number of `datetime(2025, 6, 2).date()`, the anchor date of the
hardcoded special case (proleptic-Gregorian ordinal). -/
def june2of2025 : ℤ := 739404

/-- The forecast response of `ForecastService.forecast`: role, location,
the full history, the zipped (date, value) forecast points, and the model
metadata (reduced here to the window size; type and timestamp are opaque
strings that no claim inspects). -/
structure ForecastResult where
  role : List Char
  location : List Char
  history : List (ℤ × ℚ)
  forecast : List (ℤ × ℚ)
  modelWindow : ℕ
deriving DecidableEq, Repr

/-- Embedding of `ForecastService.forecast`, lines 143-224, after the artifact and the
history have been loaded (the loaded model, the scaler's elementwise
transform and inverse, the metadata window size, and the history data frame
are the inputs): require enough history else the insufficient-history
`ValueError`; take the last `window_size` raw values as the seed; run
`predict_recursive`; compute forecast dates — with the hardcoded branch for
role "Software Engineer", a location containing "New York" and
`horizon >= 52`, which anchors the dates at June 2, 2025, uses
`max(horizon, 56)` weeks when `horizon == 52` and regenerates 56
predictions in that case — and zip dates with predictions. -/
def forecastE (model : List ℚ → ℚ) (tr inv : ℚ → ℚ) (window_size : ℕ)
    (df : List (ℤ × ℚ)) (role location : List Char) (horizon : ℕ) :
    Except Err ForecastResult :=
  if df.length < window_size then .error .insufficientHistory
  else
    let last_values := pySliceLast window_size (df.map Prod.snd)
    let predictions := predict_recursive model tr inv last_values horizon
    let last_date := (df.map Prod.fst).getLastD 0
    if role = seRoleChars ∧ List.IsInfix nyChars location ∧ 52 ≤ horizon then
      let weeks_to_cover := max horizon 56
      let actual_weeks := if 52 < horizon then min weeks_to_cover horizon else weeks_to_cover
      let forecast_dates := (List.range actual_weeks).map (fun i => june2of2025 + 7 * Int.ofNat i)
      let predictions2 :=
        if horizon = 52 then predict_recursive model tr inv last_values 56 else predictions
      .ok ⟨role, location, df, forecast_dates.zip predictions2, window_size⟩
    else
      let forecast_dates := (List.range horizon).map (fun i => last_date + 7 * (Int.ofNat i + 1))
      .ok ⟨role, location, df, forecast_dates.zip predictions, window_size⟩

/-- Lowercasing a Python string, elementwise (`str.lower`; the inputs in
scope are role and location names). -/
def pyLower (l : List Char) : List Char := l.map Char.toLower

/-- Python `s.replace(" ", "_")`. -/
def spaceToUnderscore (l : List Char) : List Char :=
  l.map (fun c => if c = ' ' then '_' else c)

/-- Python `s.replace(",", "")`. -/
def dropCommas (l : List Char) : List Char := l.filter (fun c => c ≠ ',')

/-- Python `s.replace(",", "_")`. -/
def commaToUnderscore (l : List Char) : List Char :=
  l.map (fun c => if c = ',' then '_' else c)

/-- Python `s.replace(", ", "_")`: left-to-right, non-overlapping — a comma
followed by a space is replaced, any other character is copied. -/
def replaceCommaSpace : List Char → List Char
  | [] => []
  | c :: rest =>
    if c = ',' then
      match rest with
      | ' ' :: rest2 => '_' :: replaceCommaSpace rest2
      | r2 => c :: replaceCommaSpace r2
    else c :: replaceCommaSpace rest

/-- Python `"__" in s`. -/
def hasDoubleUnderscore : List Char → Bool
  | [] => false
  | [_] => false
  | c :: d :: rest => (c = '_' && d = '_') || hasDoubleUnderscore (d :: rest)

/-- One pass of Python `s.replace("__", "_")`: left-to-right,
non-overlapping. -/
def replaceDoubleUnderscore : List Char → List Char
  | [] => []
  | [c] => [c]
  | c :: d :: rest =>
    if c = '_' ∧ d = '_' then '_' :: replaceDoubleUnderscore rest
    else c :: replaceDoubleUnderscore (d :: rest)

/-- The loop `while "__" in s: s = s.replace("__", "_")` of
`Settings.get_artifacts_path`, run with fuel: each iteration on a string
still containing `__` strictly shortens it, so `length l` iterations always
reach the fixpoint. -/
def collapseLoop : ℕ → List Char → List Char
  | 0, l => l
  | n + 1, l =>
    if hasDoubleUnderscore l then collapseLoop n (replaceDoubleUnderscore l) else l

/-- The collapse loop at its natural fuel. -/
def collapseUnderscores (l : List Char) : List Char := collapseLoop l.length l

/-- Embedding of `ml/train.py` `main`, lines 331-333: the artifact directory key written
at export time, `role.lower().replace(" ", "_")` + `"_"` +
`location.lower().replace(" ", "_").replace(",", "")`. -/
def trainKey (role location : List Char) : List Char :=
  spaceToUnderscore (pyLower role) ++ '_' ::
    dropCommas (spaceToUnderscore (pyLower location))

/-- Embedding of `backend/app/config.py` `Settings.get_artifacts_path`: the artifact
directory key read at serving time, `role.lower().replace(" ", "_")` + `"_"`
+ the location slug
`location.lower().replace(", ", "_").replace(",", "_").replace(" ", "_")`
with repeated underscores collapsed. -/
def serveKey (role location : List Char) : List Char :=
  spaceToUnderscore (pyLower role) ++ '_' ::
    collapseUnderscores
      (spaceToUnderscore (commaToUnderscore (replaceCommaSpace (pyLower location))))

/-- Embedding of `ForecastService.get_model_key`: the cache key `f"{role}|{location}"`. -/
def get_model_key (role location : List Char) : List Char :=
  role ++ '|' :: location

/-- Python dict lookup on the association-list embedding of
`ForecastService.cache`. -/
def cacheLookup (cache : List (List Char × α)) (k : List Char) : Option α :=
  match cache with
  | [] => none
  | (k2, a) :: rest => if k2 = k then some a else cacheLookup rest k

/-- Outcome of one `ForecastService.load_model` call: the returned artifact
(or `FileNotFoundError`), the cache after the call, and whether storage was
touched (directory existence check / artifact read). -/
structure LoadOutcome (α : Type) where
  result : Except Err α
  cache : List (List Char × α)
  readStore : Bool

/-- Embedding of `ForecastService.load_model` (`backend/app/services/forecast.py` lines
30-65), with storage abstracted as a partial map from artifact-directory
keys to loaded artifacts (`load_model_artifacts` is pure and idempotent):
return the cached artifact when the key `f"{role}|{location}"` is present;
otherwise read storage at `settings.get_artifacts_path(role, location)`,
raising `FileNotFoundError` when the directory is absent, and insert the
loaded artifact into the cache. -/
def load_model (store : List Char → Option α)
    (cache : List (List Char × α)) (role location : List Char) : LoadOutcome α :=
  let key := get_model_key role location
  match cacheLookup cache key with
  | some art => ⟨.ok art, cache, false⟩
  | none =>
    match store (serveKey role location) with
    | none => ⟨.error .notFound, cache, true⟩
    | some art => ⟨.ok art, (key, art) :: cache, true⟩

lemma rollWindows_length (model : List ℚ → ℚ) (h : ℕ) (w : List ℚ) :
    (rollWindows model h w).length = h := by
  induction h generalizing w with
  | zero => rfl
  | succ n ih => simp [rollWindows, ih]

lemma predict_recursive_length (model : List ℚ → ℚ) (tr inv : ℚ → ℚ)
    (seed : List ℚ) (horizon : ℕ) :
    (predict_recursive model tr inv seed horizon).length = horizon := by
  simp [predict_recursive, rollWindows_length]

lemma windowIter_shift (model : List ℚ → ℚ) (w : List ℚ) (i : ℕ) :
    windowIter model w (i + 1) = windowIter model (w.drop 1 ++ [model w]) i := by
  induction i with
  | zero => rfl
  | succ n ih =>
    show (windowIter model w (n + 1)).drop 1 ++ [model (windowIter model w (n + 1))]
      = windowIter model (w.drop 1 ++ [model w]) (n + 1)
    rw [ih]; rfl

lemma rollWindows_getD (model : List ℚ → ℚ) (h : ℕ) (w : List ℚ) (i : ℕ) (hi : i < h) :
    (rollWindows model h w).getD i 0 = model (windowIter model w i) := by
  induction h generalizing w i with
  | zero => omega
  | succ n ih =>
    cases i with
    | zero => rfl
    | succ j =>
      show (rollWindows model n (w.drop 1 ++ [model w])).getD j 0
        = model (windowIter model w (j + 1))
      rw [windowIter_shift]
      exact ih _ j (by omega)

lemma getD_map_lt (f : ℚ → ℚ) (l : List ℚ) (i : ℕ) (h : i < l.length) :
    (l.map f).getD i 0 = f (l.getD i 0) := by
  rw [List.getD_eq_getElem _ _ (by simpa using h), List.getD_eq_getElem _ _ h,
    List.getElem_map]

/-- C5: for every fixed predictor, fitted scaler (elementwise transform and
inverse), seed window and horizon >= 1, `predict_recursive` returns exactly
`horizon` values, every value is non-negative, the i-th output is the
clamped inverse-transform of the model's prediction on the i-th window, and
each step's window is the previous one with the oldest element dropped and
the previous (scaled) prediction appended.  Determinism is inherent: the
embedding is a pure function of exactly these inputs, as the source runs
the model in inference mode under `torch.no_grad()`. -/
theorem predictRecursive_contract (model : List ℚ → ℚ) (tr inv : ℚ → ℚ)
    (seed : List ℚ) (horizon : ℕ) (hh : 1 ≤ horizon) :
    (predict_recursive model tr inv seed horizon).length = horizon
  ∧ (∀ x ∈ predict_recursive model tr inv seed horizon, 0 ≤ x)
  ∧ (∀ i, i < horizon →
      (predict_recursive model tr inv seed horizon).getD i 0
        = max (inv (model (windowIter model (seed.map tr) i))) 0)
  ∧ (∀ i, windowIter model (seed.map tr) (i + 1)
        = (windowIter model (seed.map tr) i).drop 1
            ++ [model (windowIter model (seed.map tr) i)]) := by
  refine ⟨predict_recursive_length _ _ _ _ _, ?_, ?_, fun i => rfl⟩
  · intro x hx
    simp only [predict_recursive, List.mem_map] at hx
    obtain ⟨a, -, rfl⟩ := hx
    exact le_max_right _ _
  · intro i hi
    unfold predict_recursive
    rw [getD_map_lt _ _ _ (by simp [rollWindows_length, hi]),
      getD_map_lt _ _ _ (by simp [rollWindows_length, hi]),
      rollWindows_getD _ _ _ _ hi]

/-- Witness for C5 at a concrete predictor (sum of the window), identity
scaler, seed `[1, 2]` and horizon 2. -/
theorem predictRecursive_contract_witness :
    (predict_recursive (fun l => l.sum) id id [1, 2] 2).length = 2
  ∧ (∀ x ∈ predict_recursive (fun l => l.sum) id id [1, 2] 2, 0 ≤ x)
  ∧ (∀ i, i < 2 →
      (predict_recursive (fun l => l.sum) id id [1, 2] 2).getD i 0
        = max (id (List.sum (windowIter (fun l => l.sum) (([1, 2] : List ℚ).map id) i))) 0)
  ∧ (∀ i, windowIter (fun l => l.sum) (([1, 2] : List ℚ).map id) (i + 1)
        = (windowIter (fun l => l.sum) (([1, 2] : List ℚ).map id) i).drop 1
            ++ [List.sum (windowIter (fun l => l.sum) (([1, 2] : List ℚ).map id) i)]) :=
  predictRecursive_contract (fun l => l.sum) id id [1, 2] 2 (by decide)

/-- C7: whenever the loaded artifact's window size exceeds the available
history, `ForecastService.forecast` fails with the insufficient-history
error.  The statement is quantified over every model and scaler and the
result is a constant, so the recursive forecasting routine is never
consulted: the outcome does not depend on it. -/
theorem forecast_insufficientHistory (model : List ℚ → ℚ) (tr inv : ℚ → ℚ)
    (window_size : ℕ) (df : List (ℤ × ℚ)) (role location : List Char)
    (horizon : ℕ) (hlt : df.length < window_size) :
    forecastE model tr inv window_size df role location horizon
      = .error .insufficientHistory := by
  unfold forecastE
  rw [if_pos hlt]

/-- Witness for C7: empty history against a window of 3. -/
theorem forecast_insufficientHistory_witness :
    forecastE (fun _ => 0) id id 3 [] [] [] 8 = .error .insufficientHistory :=
  forecast_insufficientHistory (fun _ => 0) id id 3 [] [] [] 8 (by decide)

lemma foldl_fit_isSome (fits : List (List ℚ)) (b : NaiveBaseline)
    (hb : b.last_value.isSome) :
    (fits.foldl NaiveBaseline.fit b).last_value.isSome := by
  induction fits generalizing b with
  | nil => exact hb
  | cons t rest ih => exact ih _ (by simp [NaiveBaseline.fit])

/-- C10: fitting the naive baseline on an empty training sequence stores
0.0, so a later `predict` returns `horizon` zeros instead of the not-fitted
error; and across every sequence of `fit` calls starting from a fresh
instance, `predict` raises the not-fitted error exactly when no `fit` was
ever called. -/
theorem naiveBaseline_empty_fit (horizon : ℕ) :
    (NaiveBaseline.init.fit []).predict horizon = .ok (List.replicate horizon 0)
  ∧ NaiveBaseline.init.predict horizon = .error .notFitted
  ∧ (∀ fits : List (List ℚ),
      ((fits.foldl NaiveBaseline.fit NaiveBaseline.init).predict horizon
         = .error .notFitted) ↔ fits = []) := by
  refine ⟨rfl, rfl, fun fits => ?_⟩
  cases fits with
  | nil => simp [NaiveBaseline.init, NaiveBaseline.predict]
  | cons t rest =>
    have h := foldl_fit_isSome rest (NaiveBaseline.init.fit t) (by simp [NaiveBaseline.fit])
    simp only [List.foldl_cons]
    obtain ⟨v, hv⟩ := Option.isSome_iff_exists.mp h
    simp [NaiveBaseline.predict, hv]

/-- C4: the window builder produces exactly `max (L - w) 0` samples; sample
`i` is the pair of the slice `data[i:i+w]` (of length exactly `w`) and the
value `data[i+w]`; and when `L <= w` the sample set is empty rather than
an error. -/
theorem windowBuilder_samples (data : List ℚ) (w : ℕ) :
    ((TimeSeriesDataset.build data w).length : ℤ) = max ((data.length : ℤ) - w) 0
  ∧ (∀ i, i < (TimeSeriesDataset.build data w).length →
      (TimeSeriesDataset.build data w).getD i ([], 0)
          = ((data.drop i).take w, data.getD (i + w) 0)
        ∧ ((data.drop i).take w).length = w)
  ∧ (data.length ≤ w → TimeSeriesDataset.build data w = []) := by
  refine ⟨?_, ?_, ?_⟩
  · simp only [TimeSeriesDataset.build, List.length_map, List.length_range]
    omega
  · intro i hi
    have hlen : (TimeSeriesDataset.build data w).length = data.length - w := by
      simp [TimeSeriesDataset.build]
    rw [hlen] at hi
    constructor
    · rw [List.getD_eq_getElem _ _ (by rwa [hlen])]
      simp [TimeSeriesDataset.build]
    · rw [List.length_take, List.length_drop]
      omega
  · intro hle
    have : data.length - w = 0 := by omega
    simp [TimeSeriesDataset.build, this]

/-- Witness for C4 at the spec's example: data = [1..10], w = 3, sample 0. -/
theorem windowBuilder_samples_witness :
    (0 : ℕ) < (TimeSeriesDataset.build [1, 2, 3, 4, 5, 6, 7, 8, 9, 10] 3).length
  ∧ ((TimeSeriesDataset.build [1, 2, 3, 4, 5, 6, 7, 8, 9, 10] 3).getD 0 ([], 0)
        = ((([1, 2, 3, 4, 5, 6, 7, 8, 9, 10] : List ℚ).drop 0).take 3,
           ([1, 2, 3, 4, 5, 6, 7, 8, 9, 10] : List ℚ).getD (0 + 3) 0)
      ∧ ((([1, 2, 3, 4, 5, 6, 7, 8, 9, 10] : List ℚ).drop 0).take 3).length = 3) :=
  ⟨by decide,
   (windowBuilder_samples [1, 2, 3, 4, 5, 6, 7, 8, 9, 10] 3).2.1 0 (by decide)⟩

lemma npDiff_length (l : List ℚ) : (npDiff l).length = l.length - 1 := by
  simp only [npDiff, List.length_zipWith, List.length_tail]
  omega

lemma npDiff_getD (l : List ℚ) (i : ℕ) (hi : i + 1 < l.length) :
    (npDiff l).getD i 0 = l.getD (i + 1) 0 - l.getD i 0 := by
  have h1 : i < (npDiff l).length := by rw [npDiff_length]; omega
  have h2 : i + 1 < l.length := hi
  have h3 : i < l.length := by omega
  rw [List.getD_eq_getElem _ _ h1, List.getD_eq_getElem _ _ h2, List.getD_eq_getElem _ _ h3]
  simp [npDiff]

lemma countP_eq_range_countP (l : List α) (d : α) (p : α → Bool) :
    l.countP p = (List.range l.length).countP (fun i => p (l.getD i d)) := by
  induction l with
  | nil => rfl
  | cons a t ih =>
    rw [List.countP_cons, List.length_cons, List.range_succ_eq_map,
      List.countP_cons, List.countP_map]
    have : (fun i => p ((a :: t).getD (Nat.succ i) d)) = fun i => p (t.getD i d) := rfl
    rw [Function.comp_def]
    exact congrArg₂ (· + ·) (by rw [this, ih]) rfl

/-- C6 counterexample: at y_true = [0, 0], y_pred = [1, 0] the code counts
the single consecutive pair as a match (both deltas are non-positive, so
both `diff > 0` booleans are false) and reports 100, while the claim's
three-valued-sign comparison (sign 0 vs sign -1) reports 0. -/
theorem directionalAccuracy_counterexample :
    directional_accuracy [0, 0] [1, 0] = some 100
  ∧ directionalAccuracySpec [0, 0] [1, 0] = some 0
  ∧ (100 : ℚ) ≠ 0 := by
  refine ⟨by simp [directional_accuracy, npDiff],
    by simp [directionalAccuracySpec, npDiff, signum], by norm_num⟩

lemma getD_zip (l1 l2 : List α) (i : ℕ) (d1 d2 : α) (h1 : i < l1.length)
    (h2 : i < l2.length) :
    (l1.zip l2).getD i (d1, d2) = (l1.getD i d1, l2.getD i d2) := by
  rw [List.getD_eq_getElem _ _ (by simp [List.length_zip]; omega),
    List.getD_eq_getElem _ _ h1, List.getD_eq_getElem _ _ h2, List.getElem_zip]

lemma getD_map_bool (f : ℚ → Bool) (l : List ℚ) (i : ℕ) (h : i < l.length) :
    (l.map f).getD i false = f (l.getD i 0) := by
  rw [List.getD_eq_getElem _ _ (by simpa using h), List.getD_eq_getElem _ _ h,
    List.getElem_map]

/-- C6 amended: over equal-length sequences the directional-accuracy metric
equals the fraction of consecutive-pair indices where the deltas of the two
series agree on being strictly positive (zero and negative changes are
pooled before comparison, unlike the claim's three-valued sign), as a
percentage, and it is NaN (none) when the series has fewer than 2 points. -/
theorem directionalAccuracy_amended (y_true y_pred : List ℚ)
    (hlen : y_true.length = y_pred.length) :
    (2 ≤ y_true.length →
      directional_accuracy y_true y_pred
        = some (100 * (((List.range (y_true.length - 1)).countP
            (fun i => decide ((0 < y_true.getD (i + 1) 0 - y_true.getD i 0)
                ↔ (0 < y_pred.getD (i + 1) 0 - y_pred.getD i 0)))) : ℚ)
            / ((y_true.length - 1 : ℕ) : ℚ)))
  ∧ (y_true.length < 2 → directional_accuracy y_true y_pred = none) := by
  constructor
  · intro h2
    unfold directional_accuracy
    rw [if_pos (by omega)]
    simp only []
    have htd : ((npDiff y_true).map (fun d => decide (0 < d))).length
        = y_true.length - 1 := by simp [npDiff_length]
    have hpd : ((npDiff y_pred).map (fun d => decide (0 < d))).length
        = y_true.length - 1 := by simp [npDiff_length, ← hlen]
    rw [countP_eq_range_countP _ (false, false) _]
    have hzl : (((npDiff y_true).map (fun d => decide (0 < d))).zip
        ((npDiff y_pred).map (fun d => decide (0 < d)))).length = y_true.length - 1 := by
      simp [List.length_zip, htd, hpd]
    rw [hzl, htd]
    have hc : ((List.range (y_true.length - 1)).countP
          (fun i => ((((npDiff y_true).map (fun d => decide (0 < d))).zip
              ((npDiff y_pred).map (fun d => decide (0 < d)))).getD i (false, false)).1
            == ((((npDiff y_true).map (fun d => decide (0 < d))).zip
              ((npDiff y_pred).map (fun d => decide (0 < d)))).getD i (false, false)).2))
        = (List.range (y_true.length - 1)).countP
            (fun i => decide ((0 < y_true.getD (i + 1) 0 - y_true.getD i 0)
                ↔ (0 < y_pred.getD (i + 1) 0 - y_pred.getD i 0))) := by
      apply List.countP_congr
      intro i hi
      have hi' : i < y_true.length - 1 := List.mem_range.mp hi
      rw [getD_zip _ _ _ _ _ (by omega) (by rw [hpd]; omega)]
      rw [getD_map_bool _ _ _ (by rw [npDiff_length]; omega),
        getD_map_bool _ _ _ (by rw [npDiff_length, ← hlen]; omega)]
      rw [npDiff_getD _ _ (by omega), npDiff_getD _ _ (by omega)]
      by_cases ht : (0 : ℚ) < y_true.getD (i + 1) 0 - y_true.getD i 0 <;>
        by_cases hp : (0 : ℚ) < y_pred.getD (i + 1) 0 - y_pred.getD i 0 <;>
        simp [ht, hp]
    rw [hc]
    congr 1
    ring
  · intro hlt
    unfold directional_accuracy
    rw [if_neg (by omega)]

/-- Witness for C6 at the spec's metric example series
y_true = [10, 0, 20], y_pred = [12, 1, 18]. -/
theorem directionalAccuracy_amended_witness :
    directional_accuracy [10, 0, 20] [12, 1, 18]
      = some (100 * (((List.range (([10, 0, 20] : List ℚ).length - 1)).countP
          (fun i => decide
            ((0 < ([10, 0, 20] : List ℚ).getD (i + 1) 0 - ([10, 0, 20] : List ℚ).getD i 0)
              ↔ (0 < ([12, 1, 18] : List ℚ).getD (i + 1) 0
                  - ([12, 1, 18] : List ℚ).getD i 0)))) : ℚ)
          / ((([10, 0, 20] : List ℚ).length - 1 : ℕ) : ℚ)) :=
  (directionalAccuracy_amended [10, 0, 20] [12, 1, 18] (by decide)).1 (by decide)

/-- C3: the fitted scaler depends only on the train segment and the scaler
type — two `prepare_datasets` calls with the same train data and type but
arbitrary validation/test data (and even different transform
interpretations and window sizes) return scalers with identical fitted
parameters; moreover the returned datasets are all built from the one
scaler that is returned (the fitted instance is shared, transforming
validation/test data does not change it), and a pre-fitted scaler passed in
is returned unchanged (never refit). -/
theorem scaler_fit_train_only (tf1 tf2 : ScalerE → ℚ → ℚ)
    (train v1 t1 v2 t2 : List ℚ) (w1 w2 : ℕ) (stype : List Char) :
    ((prepare_datasets tf1 train v1 t1 w1 stype none).map (fun r => r.2.2.2)
      = (prepare_datasets tf2 train v2 t2 w2 stype none).map (fun r => r.2.2.2))
  ∧ (∀ d1 d2 d3 s,
      prepare_datasets tf1 train v1 t1 w1 stype none = .ok (d1, d2, d3, s) →
        fitScaler stype train = .ok s
      ∧ d1 = TimeSeriesDataset.build (train.map (tf1 s)) w1
      ∧ d2 = TimeSeriesDataset.build (v1.map (tf1 s)) w1
      ∧ d3 = TimeSeriesDataset.build (t1.map (tf1 s)) w1)
  ∧ (∀ s : ScalerE,
      (prepare_datasets tf1 train v1 t1 w1 stype (some s)).map (fun r => r.2.2.2)
        = .ok s) := by
  refine ⟨?_, ?_, fun s => rfl⟩
  · unfold prepare_datasets
    cases h : fitScaler stype train <;> simp [Except.map]
  · intro d1 d2 d3 s hok
    unfold prepare_datasets at hok
    cases h : fitScaler stype train with
    | error e => rw [h] at hok; simp [Except.map] at hok
    | ok s0 =>
      rw [h] at hok
      simp only [Except.map, Except.ok.injEq, Prod.mk.injEq] at hok
      obtain ⟨h1, h2, h3, h4⟩ := hok
      subst h1
      subst h2
      subst h3
      subst h4
      exact ⟨rfl, rfl, rfl, rfl⟩

/-- Witness for C3: train = [2] with the standard scaler fits mean 2 and
variance 0, and the returned datasets are built from that same scaler. -/
theorem scaler_fit_train_only_witness :
    fitScaler ("standard").toList [2] = .ok (.standard 2 0)
  ∧ ([] : List (List ℚ × ℚ))
      = TimeSeriesDataset.build (([2] : List ℚ).map ((fun _ x => x) (ScalerE.standard 2 0))) 1
  ∧ [([1], 3)]
      = TimeSeriesDataset.build (([1, 3] : List ℚ).map ((fun _ x => x) (ScalerE.standard 2 0))) 1
  ∧ ([] : List (List ℚ × ℚ))
      = TimeSeriesDataset.build (([] : List ℚ).map ((fun _ x => x) (ScalerE.standard 2 0))) 1 :=
  (scaler_fit_train_only (fun _ x => x) (fun _ x => x) [2] [1, 3] [] [1, 3] [] 1 1
      ("standard").toList).2.1 [] [([1], 3)] [] (.standard 2 0)
    (by simp [prepare_datasets, fitScaler, listMean, listVar, TimeSeriesDataset.build,
      Except.map, List.range_succ])

/-- C9: `ForecastService.load_model` keeps its artifacts in a cache keyed
by `get_model_key` (the normalized form derived from the role/location
pair): every existing entry survives a call (nothing is ever evicted or
invalidated), a present key is answered from the cache without touching
storage, a successful load leaves the key present, two pairs with the same
key are answered identically from a cache that holds the key, and a
repeated request for the same pair after a successful load never re-reads
the artifact from storage. -/
lemma load_model_hit {α : Type} (store : List Char → Option α)
    (cache : List (List Char × α)) (role location : List Char) (a : α)
    (h : cacheLookup cache (get_model_key role location) = some a) :
    load_model store cache role location = ⟨.ok a, cache, false⟩ := by
  unfold load_model
  simp only []
  rw [h]

lemma load_model_miss_found {α : Type} (store : List Char → Option α)
    (cache : List (List Char × α)) (role location : List Char) (a : α)
    (h : cacheLookup cache (get_model_key role location) = none)
    (hs : store (serveKey role location) = some a) :
    load_model store cache role location
      = ⟨.ok a, (get_model_key role location, a) :: cache, true⟩ := by
  unfold load_model
  simp only []
  rw [h, hs]

lemma load_model_miss_absent {α : Type} (store : List Char → Option α)
    (cache : List (List Char × α)) (role location : List Char)
    (h : cacheLookup cache (get_model_key role location) = none)
    (hs : store (serveKey role location) = none) :
    load_model store cache role location = ⟨.error .notFound, cache, true⟩ := by
  unfold load_model
  simp only []
  rw [h, hs]

theorem modelCache_contract {α : Type} (store : List Char → Option α)
    (cache : List (List Char × α)) (role location : List Char) :
    (∀ e ∈ cache, e ∈ (load_model store cache role location).cache)
  ∧ (∀ a, cacheLookup cache (get_model_key role location) = some a →
      load_model store cache role location = ⟨.ok a, cache, false⟩)
  ∧ (∀ a, (load_model store cache role location).result = .ok a →
      cacheLookup (load_model store cache role location).cache
        (get_model_key role location) = some a)
  ∧ (∀ role2 location2,
      get_model_key role location = get_model_key role2 location2 →
      ∀ a, cacheLookup cache (get_model_key role location) = some a →
        load_model store cache role location = load_model store cache role2 location2)
  ∧ (∀ a, (load_model store cache role location).result = .ok a →
      load_model store (load_model store cache role location).cache role location
        = ⟨.ok a, (load_model store cache role location).cache, false⟩) := by
  have keyLookup : ∀ a : α, (load_model store cache role location).result = .ok a →
      cacheLookup (load_model store cache role location).cache
        (get_model_key role location) = some a := by
    intro a ha
    cases h : cacheLookup cache (get_model_key role location) with
    | some art =>
      rw [load_model_hit store cache role location art h] at ha ⊢
      cases ha
      exact h
    | none =>
      cases hs : store (serveKey role location) with
      | none =>
        rw [load_model_miss_absent store cache role location h hs] at ha
        cases ha
      | some art =>
        rw [load_model_miss_found store cache role location art h hs] at ha ⊢
        cases ha
        simp [cacheLookup]
  refine ⟨?_, fun a ha => load_model_hit store cache role location a ha, keyLookup, ?_, ?_⟩
  · intro e he
    cases h : cacheLookup cache (get_model_key role location) with
    | some art => rw [load_model_hit store cache role location art h]; exact he
    | none =>
      cases hs : store (serveKey role location) with
      | none => rw [load_model_miss_absent store cache role location h hs]; exact he
      | some art =>
        rw [load_model_miss_found store cache role location art h hs]
        exact List.mem_cons_of_mem _ he
  · intro role2 location2 hkey a ha
    rw [load_model_hit store cache role location a ha,
      load_model_hit store cache role2 location2 a (by rw [← hkey]; exact ha)]
  · intro a ha
    exact load_model_hit store _ role location a (keyLookup a ha)

/-- Witness for C9: an empty cache, a single-artifact store; the first load
succeeds and the second is served from the cache without reading storage. -/
theorem modelCache_contract_witness :
    (load_model (fun _ => some 7) [] ("A").toList ("B").toList).result = .ok 7
  ∧ load_model (fun _ => some 7)
        (load_model (fun _ => some 7) [] ("A").toList ("B").toList).cache
        ("A").toList ("B").toList
      = ⟨.ok 7, (load_model (fun _ => some 7) [] ("A").toList ("B").toList).cache, false⟩ :=
  ⟨rfl, (modelCache_contract (fun _ => some 7) [] ("A").toList ("B").toList).2.2.2.2 7 rfl⟩

/-- C1 counterexample: for role "Software Engineer", location
"New York, NY" and the requested horizon 52 (with an artifact of window
size 1 and sufficient history), `ForecastService.forecast` returns 56
forecast points, not 52: the hardcoded special case regenerates 56
predictions and 56 dates. -/
theorem forecast_length_counterexample :
    (forecastE (fun _ => 0) id id 1 [(0, 3)] (("Software Engineer").toList)
        (("New York, NY").toList) 52).map (fun r => r.forecast.length) = .ok 56
  ∧ (56 : ℕ) ≠ 52 := by
  constructor
  · unfold forecastE
    rw [if_neg (by decide)]
    simp only []
    rw [if_pos ⟨rfl, by decide, by norm_num⟩]
    rw [if_neg (show ¬((52 : ℕ) < 52) by omega)]
    rw [if_pos trivial]
    simp only [Except.map, List.length_zip, List.length_map, List.length_range,
      predict_recursive_length]
    norm_num
  · decide

/-- C1 amended: whenever a model artifact and sufficient history exist and
the horizon is in 1..52, the forecast sequence has length equal to the
requested horizon, except in the hardcoded special case (role "Software
Engineer", location containing "New York", horizon exactly 52) where it
has length 56. -/
theorem forecast_length_amended (model : List ℚ → ℚ) (tr inv : ℚ → ℚ)
    (window_size : ℕ) (df : List (ℤ × ℚ)) (role location : List Char) (horizon : ℕ)
    (h1 : 1 ≤ horizon) (h52 : horizon ≤ 52) (hw : window_size ≤ df.length) :
    (forecastE model tr inv window_size df role location horizon).map
        (fun r => r.forecast.length)
      = .ok (if role = seRoleChars ∧ List.IsInfix nyChars location ∧ horizon = 52
          then 56 else horizon) := by
  unfold forecastE
  rw [if_neg (by omega)]
  simp only []
  by_cases hsp : role = seRoleChars ∧ List.IsInfix nyChars location ∧ 52 ≤ horizon
  · have h52' : horizon = 52 := le_antisymm h52 hsp.2.2
    subst h52'
    rw [if_pos hsp]
    rw [if_neg (show ¬((52 : ℕ) < 52) by omega)]
    rw [if_pos (show (52 : ℕ) = 52 from rfl)]
    rw [if_pos ⟨hsp.1, hsp.2.1, rfl⟩]
    simp only [Except.map, List.length_zip, List.length_map, List.length_range,
      predict_recursive_length]
    norm_num
  · have hne : ¬(role = seRoleChars ∧ List.IsInfix nyChars location ∧ horizon = 52) := by
      intro hc
      exact hsp ⟨hc.1, hc.2.1, le_of_eq hc.2.2.symm⟩
    rw [if_neg hsp, if_neg hne]
    simp only [Except.map, List.length_zip, List.length_map, List.length_range,
      predict_recursive_length]
    exact congrArg Except.ok (min_self horizon)

/-- Witness for C1 (amended) at a non-special key and horizon 8. -/
theorem forecast_length_amended_witness :
    (forecastE (fun _ => 0) id id 1 [(0, 3)] (("Data Scientist").toList)
        (("Austin, TX").toList) 8).map (fun r => r.forecast.length)
      = .ok (if ("Data Scientist").toList = seRoleChars
          ∧ List.IsInfix nyChars (("Austin, TX").toList) ∧ 8 = 52 then 56 else 8) :=
  forecast_length_amended (fun _ => 0) id id 1 [(0, 3)] (("Data Scientist").toList)
    (("Austin, TX").toList) 8 (by decide) (by decide) (by decide)

lemma pyIdx_ofNat (n a : ℕ) : pyIdx n (a : ℤ) = min a n := by
  unfold pyIdx
  rw [if_neg (by omega)]
  simp

lemma take_min_length (l : List α) (b : ℕ) : l.take (min b l.length) = l.take b := by
  rcases le_total b l.length with h | h
  · rw [min_eq_left h]
  · rw [min_eq_right h, List.take_length, List.take_of_length_le h]

lemma pySlice_ofNat (a b : ℕ) (l : List α) (hab : a ≤ b) :
    pySlice (a : ℤ) (b : ℤ) l = (l.drop a).take (b - a) := by
  unfold pySlice
  rw [pyIdx_ofNat, pyIdx_ofNat, take_min_length]
  rcases le_total a l.length with h | h
  · rw [min_eq_left h, List.take_drop, Nat.add_sub_cancel' hab]
  · rw [min_eq_right h]
    rw [List.drop_eq_nil_of_le (by rw [List.length_take]; omega),
      List.drop_eq_nil_of_le h, List.take_nil]

lemma pySlice_zero (b : ℕ) (l : List α) : pySlice 0 (b : ℤ) l = l.take b := by
  have h := pySlice_ofNat 0 b l (Nat.zero_le b)
  simpa using h

lemma pySlice_to_length (a : ℕ) (l : List α) :
    pySlice (a : ℤ) (l.length : ℤ) l = l.drop a := by
  unfold pySlice
  rw [pyIdx_ofNat, pyIdx_ofNat, min_self, List.take_length]
  rcases le_total a l.length with h | h
  · rw [min_eq_left h]
  · rw [min_eq_right h, List.drop_length, List.drop_eq_nil_of_le h]

lemma sortByDate_perm (data : List (ℤ × ℚ)) : (sortByDate data).Perm data :=
  List.mergeSort_perm data _

lemma sortByDate_sorted (data : List (ℤ × ℚ)) :
    ((sortByDate data).map Prod.fst).Sorted (· ≤ ·) := by
  have h := @List.sorted_mergeSort (ℤ × ℚ) (fun p q => decide (p.1 ≤ q.1))
    (fun a b c h1 h2 => by
      simp only [decide_eq_true_eq] at h1 h2 ⊢
      omega)
    (fun a b => by
      simp only [Bool.or_eq_true, decide_eq_true_eq]
      omega)
    data
  rw [List.Sorted, List.pairwise_map]
  exact h.imp (fun hab => by simpa using hab)

/-- C2 amended: for nonnegative ratios whose sum is within 1e-6 of 1,
`split_time_series` sorts ascending by date (the returned pieces
concatenate to a permutation of the input, sorted by date) and returns the
three contiguous slices cut at `floor(N * r_train)` and
`floor(N * (r_train + r_val))`; with ratios outside the tolerance it fails
with the configuration error.  (A negative ratio — excluded here — makes
the claim's slice formulas false because Python interprets a negative cut
index from the end of the frame.) -/
theorem split_contract (data : List (ℤ × ℚ)) (r_tr r_va r_te : ℚ)
    (h_tr : 0 ≤ r_tr) (h_va : 0 ≤ r_va) (h_te : 0 ≤ r_te) :
    ((|r_tr + r_va + r_te - 1| < 1 / 1000000) →
      split_time_series data r_tr r_va r_te
        = .ok ((sortByDate data).take (⌊(data.length : ℚ) * r_tr⌋).toNat,
            ((sortByDate data).drop (⌊(data.length : ℚ) * r_tr⌋).toNat).take
              ((⌊(data.length : ℚ) * (r_tr + r_va)⌋).toNat
                - (⌊(data.length : ℚ) * r_tr⌋).toNat),
            (sortByDate data).drop (⌊(data.length : ℚ) * (r_tr + r_va)⌋).toNat)
      ∧ (sortByDate data).take (⌊(data.length : ℚ) * r_tr⌋).toNat
          ++ (((sortByDate data).drop (⌊(data.length : ℚ) * r_tr⌋).toNat).take
              ((⌊(data.length : ℚ) * (r_tr + r_va)⌋).toNat
                - (⌊(data.length : ℚ) * r_tr⌋).toNat)
            ++ (sortByDate data).drop (⌊(data.length : ℚ) * (r_tr + r_va)⌋).toNat)
          = sortByDate data)
  ∧ (sortByDate data).Perm data
  ∧ ((sortByDate data).map Prod.fst).Sorted (· ≤ ·)
  ∧ (¬(|r_tr + r_va + r_te - 1| < 1 / 1000000) →
      split_time_series data r_tr r_va r_te = .error .invalidConfiguration) := by
  have hlen : (sortByDate data).length = data.length := (sortByDate_perm data).length_eq
  have hT : 0 ≤ ⌊(data.length : ℚ) * r_tr⌋ :=
    Int.floor_nonneg.mpr (mul_nonneg (by positivity) h_tr)
  have hV : 0 ≤ ⌊(data.length : ℚ) * (r_tr + r_va)⌋ :=
    Int.floor_nonneg.mpr (mul_nonneg (by positivity) (by linarith))
  have hTV : (⌊(data.length : ℚ) * r_tr⌋).toNat
      ≤ (⌊(data.length : ℚ) * (r_tr + r_va)⌋).toNat := by
    have hm : (data.length : ℚ) * r_tr ≤ (data.length : ℚ) * (r_tr + r_va) := by
      apply mul_le_mul_of_nonneg_left (by linarith) (by positivity)
    exact Int.toNat_le_toNat (Int.floor_le_floor hm)
  refine ⟨?_, sortByDate_perm data, sortByDate_sorted data, ?_⟩
  · intro htol
    have e1 : pyInt ((((sortByDate data).length : ℤ) : ℚ) * r_tr)
        = ((⌊(data.length : ℚ) * r_tr⌋).toNat : ℤ) := by
      unfold pyInt
      rw [hlen]
      rw [if_pos (mul_nonneg (by positivity) h_tr)]
      rw [Int.toNat_of_nonneg hT]
      norm_num
    have e2 : pyInt ((((sortByDate data).length : ℤ) : ℚ) * (r_tr + r_va))
        = ((⌊(data.length : ℚ) * (r_tr + r_va)⌋).toNat : ℤ) := by
      unfold pyInt
      rw [hlen]
      rw [if_pos (mul_nonneg (by positivity) (by linarith))]
      rw [Int.toNat_of_nonneg hV]
      norm_num
    constructor
    · unfold split_time_series
      rw [if_pos htol]
      simp only []
      rw [e1, e2, pySlice_zero, pySlice_ofNat _ _ _ hTV, pySlice_to_length]
    · have hdrop : (sortByDate data).drop (⌊(data.length : ℚ) * (r_tr + r_va)⌋).toNat
          = ((sortByDate data).drop (⌊(data.length : ℚ) * r_tr⌋).toNat).drop
            ((⌊(data.length : ℚ) * (r_tr + r_va)⌋).toNat
              - (⌊(data.length : ℚ) * r_tr⌋).toNat) := by
        rw [List.drop_drop]
        congr 1
        omega
      rw [hdrop, List.take_append_drop, List.take_append_drop]
  · intro htol
    unfold split_time_series
    rw [if_neg htol]

/-- C2 counterexample: with ratios (-1/2, 1, 1/2) — which sum to exactly 1
and pass the tolerance check — on a 4-row sorted frame, the claim's slice
formula says the train split is `[0, floor(4 * -1/2)) = [0, -2)`, i.e.
empty, but the code's `iloc[:-2]` returns the first two rows. -/
theorem split_counterexample :
    (split_time_series [(0, 1), (1, 1), (2, 1), (3, 1)] (-(1 / 2)) 1 (1 / 2)).map
        (fun t => t.1)
      = .ok [(0, 1), (1, 1)]
  ∧ (sortByDate [(0, 1), (1, 1), (2, 1), (3, 1)]).take
        (⌊(([(0, 1), (1, 1), (2, 1), (3, 1)] : List (ℤ × ℚ)).length : ℚ)
          * (-(1 / 2))⌋).toNat
      = []
  ∧ ([(0, 1), (1, 1)] : List (ℤ × ℚ)) ≠ [] := by
  have hsort : sortByDate [(0, 1), (1, 1), (2, 1), (3, 1)]
      = [(0, 1), (1, 1), (2, 1), (3, 1)] :=
    List.mergeSort_of_sorted (by decide)
  refine ⟨?_, ?_, by decide⟩
  · unfold split_time_series
    rw [if_pos (by norm_num)]
    simp only []
    rw [hsort]
    have harg : (((([(0, 1), (1, 1), (2, 1), (3, 1)] : List (ℤ × ℚ)).length : ℤ) : ℚ)
        * (-(1 / 2))) = ((-2 : ℤ) : ℚ) := by norm_num
    have e : pyInt (((([(0, 1), (1, 1), (2, 1), (3, 1)] : List (ℤ × ℚ)).length : ℤ) : ℚ)
        * (-(1 / 2))) = -2 := by
      rw [harg]
      unfold pyInt
      rw [if_neg (by norm_num)]
      exact Int.ceil_intCast (-2)
    rw [e]
    simp only [Except.map]
    exact congrArg Except.ok (by decide)
  · rw [hsort]
    have e2 : (⌊(([(0, 1), (1, 1), (2, 1), (3, 1)] : List (ℤ × ℚ)).length : ℚ)
        * (-(1 / 2))⌋).toNat = 0 := by
      norm_num
    rw [e2]
    rfl

/-- Witness for C2 (amended) with the standard ratios (0.7, 0.15, 0.15) on
a 4-row frame. -/
theorem split_contract_witness :
    split_time_series [(0, 5), (1, 6), (2, 7), (3, 8)] (7 / 10) (15 / 100) (15 / 100)
      = .ok ((sortByDate [(0, 5), (1, 6), (2, 7), (3, 8)]).take
          (⌊(([(0, 5), (1, 6), (2, 7), (3, 8)] : List (ℤ × ℚ)).length : ℚ) * (7 / 10)⌋).toNat,
        ((sortByDate [(0, 5), (1, 6), (2, 7), (3, 8)]).drop
          (⌊(([(0, 5), (1, 6), (2, 7), (3, 8)] : List (ℤ × ℚ)).length : ℚ) * (7 / 10)⌋).toNat).take
          ((⌊(([(0, 5), (1, 6), (2, 7), (3, 8)] : List (ℤ × ℚ)).length : ℚ)
              * (7 / 10 + 15 / 100)⌋).toNat
            - (⌊(([(0, 5), (1, 6), (2, 7), (3, 8)] : List (ℤ × ℚ)).length : ℚ) * (7 / 10)⌋).toNat),
        (sortByDate [(0, 5), (1, 6), (2, 7), (3, 8)]).drop
          (⌊(([(0, 5), (1, 6), (2, 7), (3, 8)] : List (ℤ × ℚ)).length : ℚ)
            * (7 / 10 + 15 / 100)⌋).toNat) :=
  ((split_contract [(0, 5), (1, 6), (2, 7), (3, 8)] (7 / 10) (15 / 100) (15 / 100)
      (by norm_num) (by norm_num) (by norm_num)).1 (by norm_num)).1

/-- A separator character of the slug alphabet (space or underscore), used
only to state on which locations the two slug computations agree. -/
def sepChar (c : Char) : Bool := c = ' ' || c = '_'

/-- The next character (if any) is not a separator and not a comma. -/
def headNotSep : List Char → Bool
  | [] => true
  | d :: _ => !(sepChar d || d = ',')

/-- Well-separated location strings (stated on the lowercased character
list): every comma is immediately followed by exactly one space, and no
space or underscore is followed by another separator or by a comma.  Real
location names such as "new york, ny" satisfy this. -/
def goodLoc : List Char → Bool
  | [] => true
  | c :: rest =>
    if c = ',' then
      match rest with
      | ' ' :: rest2 => headNotSep rest2 && goodLoc rest2
      | _ => false
    else if sepChar c then headNotSep rest && goodLoc rest
    else goodLoc rest

/-- The common normal form both slug pipelines reach on well-separated
inputs: a comma-space pair becomes one underscore, a space becomes an
underscore, everything else is copied. -/
def canon : List Char → List Char
  | [] => []
  | c :: rest =>
    if c = ',' then
      match rest with
      | ' ' :: rest2 => '_' :: canon rest2
      | r2 => c :: canon r2
    else (if c = ' ' then '_' else c) :: canon rest


lemma collapseLoop_of_no_double (n : ℕ) (l : List Char)
    (h : hasDoubleUnderscore l = false) : collapseLoop n l = l := by
  cases n with
  | zero => rfl
  | succ m => simp [collapseLoop, h]

lemma canon_cons_not_special (c : Char) (rest : List Char) (hc : ¬ c = ',') :
    canon (c :: rest) = (if c = ' ' then '_' else c) :: canon rest := by
  rw [canon.eq_def]
  simp [hc]

lemma hasDU_cons_cons (a b : Char) (t : List Char) :
    hasDoubleUnderscore (a :: b :: t)
      = ((a = '_' && b = '_') || hasDoubleUnderscore (b :: t)) := rfl

lemma canon_headNotSep (l : List Char) (h : headNotSep l = true) :
    canon l = [] ∨ ∃ d t, canon l = d :: t ∧ ¬ d = '_' := by
  cases l with
  | nil => exact Or.inl rfl
  | cons d rest =>
    simp only [headNotSep, sepChar, Bool.not_eq_true', Bool.or_eq_false_iff,
      decide_eq_false_iff_not] at h
    right
    refine ⟨d, canon rest, ?_, h.1.2⟩
    rw [canon_cons_not_special d rest h.2, if_neg h.1.1]


lemma goodLoc_comma_space (rest2 : List Char) (hg : goodLoc (',' :: ' ' :: rest2) = true) :
    headNotSep rest2 = true ∧ goodLoc rest2 = true := by
  rw [goodLoc.eq_def] at hg
  simpa using hg

lemma goodLoc_comma_bad (r2 : List Char) (hx : ∀ rest2 : List Char, r2 = ' ' :: rest2 → False)
    (hg : goodLoc (',' :: r2) = true) : False := by
  rw [goodLoc.eq_def] at hg
  rcases r2 with _ | ⟨d, t⟩
  · simp at hg
  · by_cases hd : d = ' '
    · exact hx t (by rw [hd])
    · simp [hd] at hg

lemma goodLoc_sep (c : Char) (rest : List Char) (hc : ¬c = ',') (hs : sepChar c = true)
    (hg : goodLoc (c :: rest) = true) :
    headNotSep rest = true ∧ goodLoc rest = true := by
  rw [goodLoc.eq_def] at hg
  simp [hc, hs] at hg
  exact hg

lemma goodLoc_other (c : Char) (rest : List Char) (hc : ¬c = ',') (hs : ¬sepChar c = true)
    (hg : goodLoc (c :: rest) = true) : goodLoc rest = true := by
  rw [goodLoc.eq_def] at hg
  simp [hc, hs] at hg
  exact hg

lemma stu_head_ne_comma (c : Char) (hc : ¬c = ',') : ¬(if c = ' ' then '_' else c) = ',' := by
  by_cases h : c = ' ' <;> simp [h, hc]

lemma dropCommas_stu_cons (c : Char) (rest : List Char) (hc : ¬c = ',') :
    dropCommas (spaceToUnderscore (c :: rest))
      = (if c = ' ' then '_' else c) :: dropCommas (spaceToUnderscore rest) := by
  simp only [spaceToUnderscore, List.map_cons, dropCommas, List.filter_cons]
  rw [if_pos]
  simp [stu_head_ne_comma c hc]

lemma train_canon (l : List Char) (hg : goodLoc l = true) :
    dropCommas (spaceToUnderscore l) = canon l := by
  induction l using goodLoc.induct with
  | case1 => rfl
  | case2 rest2 ih =>
    obtain ⟨hns, hgr⟩ := goodLoc_comma_space rest2 hg
    have hL : dropCommas (spaceToUnderscore (',' :: ' ' :: rest2))
        = '_' :: dropCommas (spaceToUnderscore rest2) := rfl
    have hR : canon (',' :: ' ' :: rest2) = '_' :: canon rest2 := rfl
    rw [hL, hR, ih hgr]
  | case3 r2 hx => exact absurd hg (by intro h; exact goodLoc_comma_bad r2 hx h)
  | case4 c rest hc hs ih =>
    obtain ⟨hns, hgr⟩ := goodLoc_sep c rest hc hs hg
    rw [dropCommas_stu_cons c rest hc, canon_cons_not_special c rest hc, ih hgr]
  | case5 c rest hc hs ih =>
    have hgr := goodLoc_other c rest hc hs hg
    rw [dropCommas_stu_cons c rest hc, canon_cons_not_special c rest hc, ih hgr]

lemma rcs_cons_ne (c : Char) (rest : List Char) (hc : ¬c = ',') :
    replaceCommaSpace (c :: rest) = c :: replaceCommaSpace rest := by
  rw [replaceCommaSpace.eq_def]
  simp [hc]

lemma serve_canon (l : List Char) (hg : goodLoc l = true) :
    spaceToUnderscore (commaToUnderscore (replaceCommaSpace l)) = canon l := by
  induction l using goodLoc.induct with
  | case1 => rfl
  | case2 rest2 ih =>
    obtain ⟨hns, hgr⟩ := goodLoc_comma_space rest2 hg
    have hL : replaceCommaSpace (',' :: ' ' :: rest2) = '_' :: replaceCommaSpace rest2 := rfl
    have hR : canon (',' :: ' ' :: rest2) = '_' :: canon rest2 := rfl
    rw [hL, hR]
    simp only [commaToUnderscore, List.map_cons, spaceToUnderscore]
    rw [← ih hgr]
    simp [commaToUnderscore, spaceToUnderscore]
  | case3 r2 hx => exact absurd hg (by intro h; exact goodLoc_comma_bad r2 hx h)
  | case4 c rest hc hs ih =>
    obtain ⟨hns, hgr⟩ := goodLoc_sep c rest hc hs hg
    rw [rcs_cons_ne c rest hc, canon_cons_not_special c rest hc]
    simp only [commaToUnderscore, List.map_cons, spaceToUnderscore]
    rw [if_neg hc, ← ih hgr]
    simp [commaToUnderscore, spaceToUnderscore]
  | case5 c rest hc hs ih =>
    have hgr := goodLoc_other c rest hc hs hg
    rw [rcs_cons_ne c rest hc, canon_cons_not_special c rest hc]
    simp only [commaToUnderscore, List.map_cons, spaceToUnderscore]
    rw [if_neg hc, ← ih hgr]
    simp [commaToUnderscore, spaceToUnderscore]

lemma canon_noDU (l : List Char) (hg : goodLoc l = true) :
    hasDoubleUnderscore (canon l) = false := by
  induction l using goodLoc.induct with
  | case1 => rfl
  | case2 rest2 ih =>
    obtain ⟨hns, hgr⟩ := goodLoc_comma_space rest2 hg
    have hR : canon (',' :: ' ' :: rest2) = '_' :: canon rest2 := rfl
    rw [hR]
    rcases canon_headNotSep rest2 hns with hnil | ⟨d, t, heq, hd⟩
    · rw [hnil]; rfl
    · rw [heq, hasDU_cons_cons]
      have h2 : hasDoubleUnderscore (d :: t) = false := by rw [← heq]; exact ih hgr
      simp [hd, h2]
  | case3 r2 hx => exact absurd hg (by intro h; exact goodLoc_comma_bad r2 hx h)
  | case4 c rest hc hs ih =>
    obtain ⟨hns, hgr⟩ := goodLoc_sep c rest hc hs hg
    rw [canon_cons_not_special c rest hc]
    rcases canon_headNotSep rest hns with hnil | ⟨d, t, heq, hd⟩
    · rw [hnil]; rfl
    · rw [heq, hasDU_cons_cons]
      have h2 : hasDoubleUnderscore (d :: t) = false := by rw [← heq]; exact ih hgr
      simp [hd, h2]
  | case5 c rest hc hs ih =>
    have hgr := goodLoc_other c rest hc hs hg
    have hcu : ¬c = '_' := by
      simp only [sepChar, Bool.or_eq_true, decide_eq_true_eq] at hs
      push_neg at hs
      exact hs.2
    rw [canon_cons_not_special c rest hc, if_neg (by
      simp only [sepChar, Bool.or_eq_true, decide_eq_true_eq] at hs
      push_neg at hs
      exact hs.1)]
    rcases hcr : canon rest with _ | ⟨d, t⟩
    · rfl
    · rw [hasDU_cons_cons]
      have h2 : hasDoubleUnderscore (d :: t) = false := by rw [← hcr]; exact ih hgr
      simp [hcu, h2]

lemma serveLoc_eq_trainLoc (l : List Char) (hg : goodLoc l = true) :
    collapseUnderscores (spaceToUnderscore (commaToUnderscore (replaceCommaSpace l)))
      = dropCommas (spaceToUnderscore l) := by
  rw [train_canon l hg]
  unfold collapseUnderscores
  rw [serve_canon l hg]
  exact collapseLoop_of_no_double _ _ (canon_noDU l hg)

/-- C8 amended: the role component of the artifact key is computed the same
way by the training script and the serving configuration, and the full keys
agree on every well-separated location (each comma immediately followed by
exactly one space, no separator adjacent to another separator or comma) —
which covers real location names such as "New York, NY".  In general the
two keys differ (see the counterexample), and only the serving side
collapses repeated underscores, so neither side implements the spec's slug
in full. -/
theorem slugKeys_amended (role location : List Char)
    (hg : goodLoc (pyLower location) = true) :
    trainKey role location = serveKey role location := by
  unfold trainKey serveKey
  rw [serveLoc_eq_trainLoc (pyLower location) hg]

/-- C8 counterexample: at location "a,b" (a comma not followed by a space)
the training script exports under key "engineer_ab" while the serving side
looks up "engineer_a_b" — the two slug computations disagree. -/
theorem slugKeys_counterexample :
    trainKey (("Engineer").toList) (("a,b").toList)
      ≠ serveKey (("Engineer").toList) (("a,b").toList) := by decide

/-- Witness for C8 (amended) at the repository's own key
("Software Engineer", "New York, NY"). -/
theorem slugKeys_amended_witness :
    trainKey (("Software Engineer").toList) (("New York, NY").toList)
      = serveKey (("Software Engineer").toList) (("New York, NY").toList) :=
  slugKeys_amended (("Software Engineer").toList) (("New York, NY").toList) (by decide)

/-- Witness for C10: an empty-fit instance predicts three zeros, and one
`fit` call means `predict` no longer raises the not-fitted error. -/
theorem naiveBaseline_empty_fit_witness :
    (NaiveBaseline.init.fit []).predict 3 = .ok (List.replicate 3 0)
  ∧ ((([[5]] : List (List ℚ)).foldl NaiveBaseline.fit NaiveBaseline.init).predict 3
        = .error .notFitted ↔ ([[5]] : List (List ℚ)) = []) :=
  ⟨(naiveBaseline_empty_fit 3).1, (naiveBaseline_empty_fit 3).2.2 [[5]]⟩
